import Mathlib

/-!
# Shallow embedding of `pygraphdb.table_sql.PlainSQL` (NetworkXum)

This file embeds the relational graph store of `src/pygraphdb/table_sql.py`
into Lean and settles the specification claims against it.

Modelling conventions:
* The two SQL tables (`table_edges`, the indexed primary edge table, and
  `new_edges`, the unindexed staging table) are lists of stored rows; the
  autoincrement counter of the primary-key column is carried explicitly.
* A SQLAlchemy `session.merge` followed by `commit` is an upsert keyed on the
  primary key `_id`; a row with no `_id` is inserted with a fresh id.
  A `commit` that can fail is modelled by an explicit `commitOk : Bool`
  oracle: a transactional commit either applies every pending merge or none.
* `Float` weights are modelled as `ℚ` (the concrete weights appearing in the
  claims, 1.0 / 2.5 / 0.5, are dyadic, so arithmetic on them is exact).
* Fallible steps return `Except String`.
-/

namespace PyGraphDB

/-- A row persisted in one of the SQL edge tables (`EdgeSQL` / `EdgeNew`
columns: `_id` BigInteger primary key, `v_from`, `v_to` BigInteger,
`weight` Float, `attributes_json` Text). In a stored row the primary key
has been assigned. -/
structure StoredRow where
  _id : Int
  v_from : Int
  v_to : Int
  weight : ℚ
  attributes_json : Option String
deriving DecidableEq, Repr

/-- A session-level ORM entity (an `EdgeSQL` object before commit): the
primary key may still be unassigned (`none`), in which case the engine
assigns a fresh id at insert time. -/
structure EdgeRow where
  _id : Option Int
  v_from : Int
  v_to : Int
  weight : ℚ
  attributes_json : Option String
deriving DecidableEq, Repr

/-- A plain edge record, the dict-shaped input accepted by the mutation API
(`e['v_from']`, `e['v_to']`, `e['weight']`, optionally `e['_id']` and an
attributes payload). -/
structure PlainRec where
  _id : Option Int
  v_from : Int
  v_to : Int
  weight : ℚ
  attributes : Option String
deriving DecidableEq, Repr

/-- Input to `_to_sql`: either an already-mapped ORM entity
(`isinstance(e, BaseEntitySQL)`) or a plain record. -/
inductive EdgeInput where
  | entity (r : EdgeRow)
  | record (r : PlainRec)
deriving DecidableEq, Repr

/-- The database state: the primary indexed table `table_edges`, the
unindexed staging table `new_edges`, and the autoincrement counter for
primary keys assigned by the engine. -/
structure DB where
  table_edges : List StoredRow
  new_edges : List StoredRow
  next_id : Int
deriving DecidableEq, Repr

/-- The store opened on an empty target: both tables empty. -/
def emptyDB : DB := ⟨[], [], 0⟩

namespace PlainSQL

/-- `PlainSQL.__max_batch_size__ = 5000`. -/
def max_batch_size : Nat := 5000

/-- `PlainSQL._to_sql(e, e_type=EdgeSQL)` (table_sql.py lines 286-289):
an entity is returned unchanged; a plain record is converted by
`e_type(e['v_from'], e['v_to'], e['weight'])` — only the two endpoints and
the weight are passed to the constructor, so the record's id and attributes
payload are not carried over. (`Edge.__init__` is not under the sources;
modelled from the spec: an edge built from `(from, to, weight)` has its id
absent — "assigned by the store if absent" — and no attributes.) -/
def to_sql : EdgeInput → EdgeRow
  | .entity r => r
  | .record r => ⟨none, r.v_from, r.v_to, r.weight, none⟩

/-- The effect of `self.session.merge(e)` on the primary table once
committed: an upsert keyed on the primary key `_id`. A row whose key is
already present is replaced in place; a new key is appended; an entity with
no key is inserted with the next autoincrement id. (SQLAlchemy/engine
behaviour, external to the repository.) -/
def sessionMerge (db : DB) (e : EdgeRow) : DB :=
  match e._id with
  | some i =>
    if db.table_edges.any (fun s => s._id == i) then
      { db with table_edges :=
          db.table_edges.map (fun s =>
            if s._id == i then ⟨i, e.v_from, e.v_to, e.weight, e.attributes_json⟩ else s) }
    else
      { db with table_edges :=
          db.table_edges ++ [⟨i, e.v_from, e.v_to, e.weight, e.attributes_json⟩] }
  | none =>
    { db with
        table_edges := db.table_edges ++ [⟨db.next_id, e.v_from, e.v_to, e.weight, e.attributes_json⟩],
        next_id := db.next_id + 1 }

/-- `PlainSQL.find_edge(v_from, v_to)` (lines 97-101): first edge of the
primary table with both directed endpoints matching, or none. -/
def find_edge (db : DB) (vf vt : Int) : Option StoredRow :=
  (db.table_edges.filter (fun e => e.v_from == vf && e.v_to == vt)).head?

/-- `PlainSQL.find_edge_or_inv(v1, v2)` (lines 103-113): all edges matching
`(from=v1,to=v2)` or `(from=v2,to=v1)`. -/
def find_edge_or_inv (db : DB) (v1 v2 : Int) : List StoredRow :=
  db.table_edges.filter (fun e =>
    (e.v_from == v1 && e.v_to == v2) || (e.v_from == v2 && e.v_to == v1))

/-- `PlainSQL.edges_from(v)` (lines 115-116). -/
def edges_from (db : DB) (v : Int) : List StoredRow :=
  db.table_edges.filter (fun e => e.v_from == v)

/-- `PlainSQL.edges_to(v)` (lines 118-119). -/
def edges_to (db : DB) (v : Int) : List StoredRow :=
  db.table_edges.filter (fun e => e.v_to == v)

/-- `PlainSQL.edges_related(v)` (lines 121-125). -/
def edges_related (db : DB) (v : Int) : List StoredRow :=
  db.table_edges.filter (fun e => e.v_from == v || e.v_to == v)

/-- `PlainSQL.all_vertexes()` (lines 127-130): the set of distinct `v_from`
values unioned with the set of distinct `v_to` values. -/
def all_vertexes (db : DB) : Finset Int :=
  (db.table_edges.map (fun e => e.v_from)).toFinset ∪
    (db.table_edges.map (fun e => e.v_to)).toFinset

/-- `PlainSQL.nodes_related_to_group(vs)` (lines 134-145): one query selects
every edge with either endpoint in `vs`; the loop then adds `e.v_from` when
it is outside `vs`, elif `e.v_to` when it is outside `vs`. -/
def nodes_related_to_group (db : DB) (vs : List Int) : Finset Int :=
  let edges := db.table_edges.filter (fun e =>
    decide (e.v_from ∈ vs) || decide (e.v_to ∈ vs))
  edges.foldl (fun result e =>
    if e.v_from ∉ vs then insert e.v_from result
    else if e.v_to ∉ vs then insert e.v_to result
    else result) ∅

/-- `PlainSQL.count_nodes()` (lines 149-150): `len(self.all_vertexes())`. -/
def count_nodes (db : DB) : Nat :=
  (all_vertexes db).card

/-- `PlainSQL.count_edges()` (lines 152-153): row count of the primary table. -/
def count_edges (db : DB) : Nat :=
  db.table_edges.length

/-- SQL aggregate `SUM(weight)` over the selected rows: `NULL` when no row
is selected, otherwise the sum. (Engine behaviour, external to the
repository; weights are non-null, see `to_sql`.) -/
def sqlSum (ws : List ℚ) : Option ℚ :=
  if ws.isEmpty then none else some ws.sum

/-- `PlainSQL.count_related(v)` (lines 155-162): one aggregate query
returning `(COUNT(weight), SUM(weight))` over edges touching `v`. -/
def count_related (db : DB) (v : Int) : Nat × Option ℚ :=
  let ws := (edges_related db v).map (fun e => e.weight)
  (ws.length, sqlSum ws)

/-- `PlainSQL.count_followers(v)` (lines 164-168): `(COUNT(weight),
SUM(weight))` over edges with `v_to = v`. -/
def count_followers (db : DB) (v : Int) : Nat × Option ℚ :=
  let ws := (edges_to db v).map (fun e => e.weight)
  (ws.length, sqlSum ws)

/-- `PlainSQL.count_following(v)` (lines 170-174): `(COUNT(weight),
SUM(weight))` over edges with `v_from = v`. -/
def count_following (db : DB) (v : Int) : Nat × Option ℚ :=
  let ws := (edges_from db v).map (fun e => e.weight)
  (ws.length, sqlSum ws)

/-- `PlainSQL.insert_edge(e)` (lines 178-181): `_to_sql` then
`session.merge` then `commit`. -/
def insert_edge (db : DB) (e : EdgeInput) : DB :=
  sessionMerge db (to_sql e)

/-- `PlainSQL.insert_edges(es)` (lines 195-203): merge every edge into the
session, then commit once; on success return `len(es)`, on a failed commit
the bare `except` returns 0 and the transaction's pending merges are not
applied. -/
def insert_edges (db : DB) (es : List EdgeInput) (commitOk : Bool) : DB × Nat :=
  let merged := es.foldl (fun d e => sessionMerge d (to_sql e)) db
  if commitOk then (merged, es.length) else (db, 0)

/-- Helper for `chunks`: `cur` is the current chunk, kept reversed; a chunk
is emitted whenever it reaches `n` elements and at the end of the input. -/
def chunksGo (n : Nat) : List α → List α → List (List α)
  | [], [] => []
  | cur, [] => [cur.reverse]
  | cur, x :: xs =>
    if (x :: cur).length == n then (x :: cur).reverse :: chunksGo n [] xs
    else chunksGo n (x :: cur) xs

/-- Modelled from the spec: `chunks` from `pygraphdb.helpers` (the helpers
module is not under the sources) partitions a sequence into consecutive
chunks of at most `n` elements, in order. -/
def chunks (n : Nat) (l : List α) : List (List α) :=
  chunksGo n [] l

/-- `PlainSQL.insert_table(source_name)` (lines 252-268): the method builds
a `REPLACE INTO table_edges SELECT * FROM new_edges` statement and binds it
to the local `migration`, but then runs `self.session.execute(step)` —
`step` is an unbound name, so the call raises `NameError` before any SQL is
executed. -/
def insert_table (_db : DB) : Except String DB :=
  .error "NameError: name 'step' is not defined"

/-- `PlainSQL.flush_temporary_table()` (lines 282-284):
`DELETE FROM new_edges` then commit. -/
def flush_temporary_table (db : DB) : DB :=
  { db with new_edges := [] }

/-- The staging loop of `PlainSQL.insert_dump` (lines 238-241): for each
chunk of at most 5000 records, convert with `self._to_sql(e)` — the
`e_type` argument is left at its default `EdgeSQL`, the primary-table
entity — and pass the converted entities to `self.insert_edges`, which
merges them into the primary table and commits. Each chunk is therefore
durably committed to `table_edges`; the staging table `new_edges` is never
written. -/
def stage_chunks (db : DB) (dump : List PlainRec) : DB :=
  (chunks max_batch_size dump).foldl
    (fun d es =>
      (insert_edges d (es.map (fun e => EdgeInput.entity (to_sql (.record e)))) true).1)
    db

/-- `PlainSQL.insert_dump(path)` (lines 227-250): record the edge count,
run the staging loop (`stage_chunks`), commit, then `insert_table` and
`flush_temporary_table`; return the count difference. Any exception is
caught, the session rolled back (the per-chunk commits are already durable
and are not undone), and 0 is returned. `yield_edges_from` is not under the
sources; modelled from the spec: the external source is a sequence of
`(from, to, weight)` edge records, represented here by the list `dump`. -/
def insert_dump (db : DB) (dump : List PlainRec) : DB × Int :=
  let cnt : Int := count_edges db
  let db1 := stage_chunks db dump
  match insert_table db1 with
  | .ok db2 =>
    let db3 := flush_temporary_table db2
    ((db3 : DB), (count_edges db3 : Int) - cnt)
  | .error _ => (db1, 0)

/-- `PlainSQL.remove_node(v)` (lines 205-215): delete every edge touching
`v`, return the number deleted; on a failed commit roll back and return 0. -/
def remove_node (db : DB) (v : Int) (commitOk : Bool) : DB × Nat :=
  let kept := db.table_edges.filter (fun e => !(e.v_from == v || e.v_to == v))
  let cnt := db.table_edges.length - kept.length
  if commitOk then ({ db with table_edges := kept }, cnt) else (db, 0)

end PlainSQL

/-- A store holding exactly one edge `1 → 2` of weight `w` (primary key 1). -/
def dbOneEdge (w : ℚ) : DB := ⟨[⟨1, 1, 2, w, none⟩], [], 2⟩

/-- A store holding the chain edges `{(1,2), (2,3), (3,4)}`. -/
def dbChain : DB :=
  ⟨[⟨1, 1, 2, 1, none⟩, ⟨2, 2, 3, 1, none⟩, ⟨3, 3, 4, 1, none⟩], [], 4⟩

/-- A store where vertex 5 has outgoing edges of weights `[1.0, 2.5, 0.5]`
(written as the exact rationals `1`, `5/2`, `1/2`). -/
def dbWeights : DB :=
  ⟨[⟨1, 5, 6, 1, none⟩, ⟨2, 5, 7, 5/2, none⟩, ⟨3, 5, 8, 1/2, none⟩], [], 4⟩

end PyGraphDB

open PyGraphDB PyGraphDB.PlainSQL

/-- **C1.** The claim says a failure at any stage of `insert_dump` rolls the
load back, returns 0, and leaves the primary edge count unchanged. The code
violates this: each chunk is committed into the primary table by
`insert_edges` (which commits per call), and the merge stage then always
raises `NameError` (`insert_table` executes the unbound name `step`), so the
handler returns 0 while the already-committed chunk rows remain. Loading a
one-edge dump into an empty store returns 0 yet leaves the primary count at
1, not 0. -/
theorem insert_dump_not_all_or_nothing :
    count_edges emptyDB = 0 ∧
    (insert_dump emptyDB [⟨none, 1, 2, 1, none⟩]).2 = 0 ∧
    count_edges (insert_dump emptyDB [⟨none, 1, 2, 1, none⟩]).1 = 1 :=
  ⟨rfl, rfl, rfl⟩

/-- **C2.** The claim says a successful `insert_dump` stages each chunk into
the unindexed staging table and then merges once into the primary table,
leaving the staging table empty. The code violates this: the staging loop
converts records with `_to_sql(e)` whose `e_type` defaults to `EdgeSQL`, the
primary-table entity, so chunks are upserted (and committed) directly into
the primary table and the staging table is never written; moreover the merge
step `insert_table` always raises `NameError` on the unbound name `step`, so
no load ever completes successfully. -/
theorem insert_dump_stages_into_primary :
    (stage_chunks emptyDB [⟨none, 1, 2, 1, none⟩]).new_edges = [] ∧
    (stage_chunks emptyDB [⟨none, 1, 2, 1, none⟩]).table_edges =
      [⟨0, 1, 2, 1, none⟩] ∧
    (∀ db : DB,
      insert_table db = Except.error "NameError: name 'step' is not defined") :=
  ⟨rfl, rfl, fun _ => rfl⟩

/-- **C3.** `insert_edges` upserts each edge of the batch (one `insert_edge`
style merge per edge) as one transaction and returns `len(es)` when the
commit succeeds; when the commit fails the bare `except` returns 0, the
pending merges are not applied, and the primary edge count is unchanged. -/
theorem insert_edges_all_or_nothing (db : DB) (es : List EdgeInput) :
    insert_edges db es true = (es.foldl insert_edge db, es.length) ∧
    insert_edges db es false = (db, 0) ∧
    count_edges (insert_edges db es false).1 = count_edges db :=
  ⟨rfl, rfl, rfl⟩

/-- One step of the `nodes_related_to_group` loop: membership in the
accumulator after processing edge `e`. -/
lemma frontier_step_mem (vs : List Int) (acc : Finset Int) (e : StoredRow)
    (x : Int) :
    (x ∈ if e.v_from ∉ vs then insert e.v_from acc
         else if e.v_to ∉ vs then insert e.v_to acc else acc) ↔
      x ∈ acc ∨ (e.v_from ∉ vs ∧ x = e.v_from) ∨
        (e.v_from ∈ vs ∧ e.v_to ∉ vs ∧ x = e.v_to) := by
  by_cases h1 : e.v_from ∈ vs <;> by_cases h2 : e.v_to ∈ vs <;>
    simp [h1, h2, Finset.mem_insert] <;> tauto

/-- Membership after folding the `nodes_related_to_group` loop over a list of
selected edges. -/
lemma frontier_foldl_mem (vs : List Int) :
    ∀ (l : List StoredRow) (acc : Finset Int) (x : Int),
      (x ∈ l.foldl (fun result e =>
          if e.v_from ∉ vs then insert e.v_from result
          else if e.v_to ∉ vs then insert e.v_to result else result) acc) ↔
        x ∈ acc ∨ ∃ e ∈ l, (e.v_from ∉ vs ∧ x = e.v_from) ∨
          (e.v_from ∈ vs ∧ e.v_to ∉ vs ∧ x = e.v_to)
  | [], acc, x => by simp
  | e :: l, acc, x => by
    rw [List.foldl_cons, frontier_foldl_mem vs l, frontier_step_mem vs acc e x]
    simp only [List.mem_cons, exists_eq_or_imp]
    exact or_assoc

/-- **C4.** `nodes_related_to_group(V)` returns exactly the vertices that are
an endpoint of some stored edge whose other endpoint lies in `V`, excluding
every vertex that is itself in `V`; on the chain `{(1,2),(2,3),(3,4)}` with
`V = {2,3}` it returns `{1,4}`. -/
theorem nodes_related_to_group_frontier :
    (∀ (db : DB) (vs : List Int) (x : Int),
      x ∈ nodes_related_to_group db vs ↔
        x ∉ vs ∧ ∃ e ∈ db.table_edges,
          (e.v_from = x ∧ e.v_to ∈ vs) ∨ (e.v_to = x ∧ e.v_from ∈ vs)) ∧
    nodes_related_to_group dbChain [2, 3] = {1, 4} := by
  constructor
  · intro db vs x
    rw [nodes_related_to_group, frontier_foldl_mem]
    simp only [Finset.not_mem_empty, false_or, List.mem_filter,
      Bool.or_eq_true, decide_eq_true_eq]
    constructor
    · rintro ⟨e, ⟨he, hcond⟩, ⟨hnf, rfl⟩ | ⟨hf, hnt, rfl⟩⟩
      · rcases hcond with hc | hc
        · exact absurd hc hnf
        · exact ⟨hnf, e, he, Or.inl ⟨rfl, hc⟩⟩
      · exact ⟨hnt, e, he, Or.inr ⟨rfl, hf⟩⟩
    · rintro ⟨hx, e, he, ⟨rfl, htv⟩ | ⟨rfl, hfv⟩⟩
      · exact ⟨e, ⟨he, Or.inr htv⟩, Or.inl ⟨hx, rfl⟩⟩
      · exact ⟨e, ⟨he, Or.inl hfv⟩, Or.inr ⟨hfv, hx, rfl⟩⟩
  · decide

/-- Replacing the row keyed `i` does not change the column of primary keys. -/
lemma ids_map_replace (l : List StoredRow) (i : Int) (row : StoredRow)
    (hrow : row._id = i) :
    (l.map (fun s => if s._id == i then row else s)).map (fun s => s._id) =
      l.map (fun s => s._id) := by
  rw [List.map_map]
  apply List.map_congr_left
  intro s _
  by_cases h : s._id = i
  · simp [h, hrow]
  · simp [h]

/-- Replacing the row keyed `i` by a row it already equals is a no-op. -/
lemma map_replace_eq_self (l : List StoredRow) (i : Int) (row : StoredRow)
    (h : ∀ s ∈ l, s._id = i → s = row) :
    l.map (fun s => if s._id == i then row else s) = l := by
  conv_rhs => rw [← List.map_id l]
  apply List.map_congr_left
  intro s hs
  by_cases hsi : s._id = i
  · simp [hsi, h s hs hsi]
  · simp [hsi]

/-- In a table with pairwise-distinct primary keys that holds key `i`,
replacing the row keyed `i` leaves exactly one row with that key: the
replacement. -/
lemma filter_map_replace (i : Int) (row : StoredRow) (hrow : row._id = i) :
    ∀ l : List StoredRow, (l.map (fun s => s._id)).Nodup →
      l.any (fun s => s._id == i) = true →
      (l.map (fun s => if s._id == i then row else s)).filter
        (fun s => s._id == i) = [row]
  | [], _, hany => by simp at hany
  | s :: t, hnd, hany => by
    simp only [List.map_cons, List.nodup_cons] at hnd
    rw [List.map_cons]
    by_cases hsi : s._id = i
    · have htail : ∀ s' ∈ t, ¬(s'._id = i) := by
        intro s' hs' he
        exact hnd.1 (hsi ▸ he ▸ List.mem_map_of_mem (fun s => s._id) hs')
      have h1 : t.map (fun s => if s._id == i then row else s) = t :=
        map_replace_eq_self t i row (fun s' hs' he => absurd he (htail s' hs'))
      have h2 : t.filter (fun s => s._id == i) = [] :=
        List.filter_eq_nil_iff.mpr (by simpa using htail)
      rw [if_pos (beq_iff_eq.mpr hsi), h1,
        List.filter_cons_of_pos (p := fun s : StoredRow => s._id == i)
          (beq_iff_eq.mpr hrow), h2]
    · have hany' : t.any (fun s => s._id == i) = true := by
        rcases List.any_eq_true.mp hany with ⟨s', hs', hp⟩
        rcases List.mem_cons.mp hs' with rfl | hs'
        · exact absurd (by simpa using hp) hsi
        · exact List.any_eq_true.mpr ⟨s', hs', hp⟩
      rw [if_neg (by simp [hsi]), List.filter_cons_of_neg (by simp [hsi])]
      exact filter_map_replace i row hrow t hnd.2 hany'

/-- `sessionMerge` of an entity carrying key `i` over a table that already
holds key `i`: each row keyed `i` is replaced by the entity's fields. -/
lemma sessionMerge_some_of_any (db : DB) (e : EdgeRow) (i : Int)
    (he : e._id = some i)
    (hany : db.table_edges.any (fun s => s._id == i) = true) :
    sessionMerge db e =
      { db with table_edges := db.table_edges.map (fun s =>
          if s._id == i then ⟨i, e.v_from, e.v_to, e.weight, e.attributes_json⟩
          else s) } := by
  simp only [sessionMerge, he, hany, if_true]

/-- The shape of `sessionMerge` for an entity carrying key `i`, over a table
with pairwise-distinct primary keys: exactly one row ends up carrying key
`i` — the merged entity's fields — the keys stay pairwise distinct, key `i`
is present afterwards, and the staging table and the id counter are
untouched. -/
lemma sessionMerge_some_spec (db : DB) (r : EdgeRow) (i : Int)
    (hr : r._id = some i)
    (hnd : (db.table_edges.map (fun s => s._id)).Nodup) :
    (sessionMerge db r).table_edges.filter (fun s => s._id == i) =
      [⟨i, r.v_from, r.v_to, r.weight, r.attributes_json⟩] ∧
    ((sessionMerge db r).table_edges.map (fun s => s._id)).Nodup ∧
    (sessionMerge db r).table_edges.any (fun s => s._id == i) = true ∧
    (sessionMerge db r).new_edges = db.new_edges ∧
    (sessionMerge db r).next_id = db.next_id := by
  by_cases hany : db.table_edges.any (fun s => s._id == i) = true
  · refine ⟨?_, ?_, ?_, ?_, ?_⟩ <;>
      simp only [sessionMerge, hr, hany, if_true]
    · exact filter_map_replace i _ rfl db.table_edges hnd hany
    · rw [ids_map_replace db.table_edges i _ rfl]; exact hnd
    · rcases List.any_eq_true.mp hany with ⟨s, hs, hp⟩
      refine List.any_eq_true.mpr
        ⟨⟨i, r.v_from, r.v_to, r.weight, r.attributes_json⟩, ?_, by simp⟩
      refine List.mem_map.mpr ⟨s, hs, ?_⟩
      simp [hp]
  · have hall : ∀ s ∈ db.table_edges, ¬(s._id = i) := by
      intro s hs he
      exact hany (List.any_eq_true.mpr ⟨s, hs, by simp [he]⟩)
    refine ⟨?_, ?_, ?_, ?_, ?_⟩ <;>
      simp only [sessionMerge, hr, hany, if_false, Bool.false_eq_true]
    · rw [List.filter_append]
      rw [List.filter_eq_nil_iff.mpr (by simpa using hall)]
      simp
    · simp only [List.map_append, List.map_cons, List.map_nil]
      rw [List.nodup_append]
      refine ⟨hnd, List.nodup_singleton i, ?_⟩
      intro a ha hb
      simp only [List.mem_singleton] at hb
      rcases List.mem_map.mp ha with ⟨s, hs, rfl⟩
      exact hall s hs hb
    · exact List.any_eq_true.mpr
        ⟨⟨i, r.v_from, r.v_to, r.weight, r.attributes_json⟩, by simp, by simp⟩

/-- **C5.** `insert_edge` is an upsert keyed on the edge id: over a store
whose primary keys are pairwise distinct, inserting `r` and then `r'` with
the same id `i` leaves exactly one row keyed `i`, carrying the latest
fields; the second insert adds no row (the count is unchanged); and
inserting the identical entity twice yields the same state as inserting it
once. -/
theorem insert_edge_upsert_by_id (db : DB) (r r' : EdgeRow) (i : Int)
    (hr : r._id = some i) (hr' : r'._id = some i)
    (hnd : (db.table_edges.map (fun s => s._id)).Nodup) :
    ((insert_edge (insert_edge db (.entity r)) (.entity r')).table_edges.filter
        (fun s => s._id == i) =
      [⟨i, r'.v_from, r'.v_to, r'.weight, r'.attributes_json⟩]) ∧
    count_edges (insert_edge (insert_edge db (.entity r)) (.entity r')) =
      count_edges (insert_edge db (.entity r)) ∧
    insert_edge (insert_edge db (.entity r)) (.entity r) =
      insert_edge db (.entity r) := by
  obtain ⟨hfil1, hnd1, hany1, -, -⟩ := sessionMerge_some_spec db r i hr hnd
  have hm2 := sessionMerge_some_of_any (sessionMerge db r) r' i hr' hany1
  refine ⟨?_, ?_, ?_⟩
  · show (sessionMerge (sessionMerge db r) r').table_edges.filter
        (fun s => s._id == i) = _
    rw [hm2]
    exact filter_map_replace i _ rfl _ hnd1 hany1
  · show count_edges (sessionMerge (sessionMerge db r) r') =
      count_edges (sessionMerge db r)
    rw [count_edges, count_edges, hm2]
    exact List.length_map _ _
  · have hall : ∀ s ∈ (sessionMerge db r).table_edges, s._id = i →
        s = ⟨i, r.v_from, r.v_to, r.weight, r.attributes_json⟩ := by
      intro s hs hsi
      have hmem : s ∈ (sessionMerge db r).table_edges.filter
          (fun s => s._id == i) :=
        List.mem_filter.mpr ⟨hs, by simp [hsi]⟩
      rw [hfil1] at hmem
      simpa using hmem
    have hmap := map_replace_eq_self (sessionMerge db r).table_edges i
      ⟨i, r.v_from, r.v_to, r.weight, r.attributes_json⟩ hall
    show sessionMerge (sessionMerge db r) r = sessionMerge db r
    rw [sessionMerge_some_of_any (sessionMerge db r) r i hr hany1, hmap]

/-- Witness for `insert_edge_upsert_by_id` at a concrete input: id 7 first
with weight 1, then with weight 5, over the empty store. -/
theorem insert_edge_upsert_by_id_witness :
    ((insert_edge (insert_edge emptyDB (.entity ⟨some 7, 1, 2, 1, none⟩))
        (.entity ⟨some 7, 1, 2, 5, none⟩)).table_edges.filter
        (fun s => s._id == 7) = [⟨7, 1, 2, 5, none⟩]) ∧
    count_edges (insert_edge (insert_edge emptyDB (.entity ⟨some 7, 1, 2, 1, none⟩))
        (.entity ⟨some 7, 1, 2, 5, none⟩)) =
      count_edges (insert_edge emptyDB (.entity ⟨some 7, 1, 2, 1, none⟩)) ∧
    insert_edge (insert_edge emptyDB (.entity ⟨some 7, 1, 2, 1, none⟩))
        (.entity ⟨some 7, 1, 2, 1, none⟩) =
      insert_edge emptyDB (.entity ⟨some 7, 1, 2, 1, none⟩) :=
  insert_edge_upsert_by_id emptyDB ⟨some 7, 1, 2, 1, none⟩ ⟨some 7, 1, 2, 5, none⟩ 7
    rfl rfl (by simp [emptyDB])

/-- **C6.** `all_vertexes()` is exactly the set of identifiers appearing as
the `from` or the `to` endpoint of some stored edge (the union of the two
endpoint projections, duplicate-free by construction as a set), and
`count_nodes()` is the cardinality of that set. -/
theorem all_vertexes_endpoint_union (db : DB) (x : Int) :
    (x ∈ all_vertexes db ↔ ∃ e ∈ db.table_edges, e.v_from = x ∨ e.v_to = x) ∧
    count_nodes db = (all_vertexes db).card := by
  refine ⟨?_, rfl⟩
  simp only [all_vertexes, Finset.mem_union, List.mem_toFinset, List.mem_map]
  constructor
  · rintro (⟨e, he, rfl⟩ | ⟨e, he, rfl⟩)
    · exact ⟨e, he, Or.inl rfl⟩
    · exact ⟨e, he, Or.inr rfl⟩
  · rintro ⟨e, he, h | h⟩
    · exact Or.inl ⟨e, he, h⟩
    · exact Or.inr ⟨e, he, h⟩

/-- **C7 (counterexample).** The claim says every edge inserted through
`insert_edge` has its supplied attributes payload persisted verbatim. It
fails for a plain record: `_to_sql` converts it by
`EdgeSQL(e['v_from'], e['v_to'], e['weight'])`, dropping the payload, so
after inserting a record carrying payload `"meta"` the stored row's
attributes column is `NULL` and no stored row carries the payload. -/
theorem insert_attributes_dropped :
    (insert_edge emptyDB (.record ⟨none, 1, 2, 1, some "meta"⟩)).table_edges =
      [⟨0, 1, 2, 1, none⟩] ∧
    ∀ s ∈ (insert_edge emptyDB
        (.record ⟨none, 1, 2, 1, some "meta"⟩)).table_edges,
      s.attributes_json ≠ some "meta" := by
  refine ⟨rfl, ?_⟩
  decide

/-- **C7 (amended).** An edge supplied to `insert_edge` as an already-mapped
entity keeps its attributes payload verbatim in the stored row (queries
return stored rows unchanged); an edge supplied as a plain record is reduced
by `_to_sql` to `(v_from, v_to, weight)`, so its attributes payload is
dropped and the stored row's attributes column is `NULL`. -/
theorem attributes_verbatim_for_entities (db : DB) (r : EdgeRow) (i : Int)
    (p : PlainRec) (hr : r._id = some i)
    (hnd : (db.table_edges.map (fun s => s._id)).Nodup) :
    ((insert_edge db (.entity r)).table_edges.filter (fun s => s._id == i) =
      [⟨i, r.v_from, r.v_to, r.weight, r.attributes_json⟩]) ∧
    (insert_edge db (.record p)).table_edges =
      db.table_edges ++ [⟨db.next_id, p.v_from, p.v_to, p.weight, none⟩] :=
  ⟨(sessionMerge_some_spec db r i hr hnd).1, rfl⟩

/-- Witness for `attributes_verbatim_for_entities` at a concrete input. -/
theorem attributes_verbatim_for_entities_witness :
    ((insert_edge emptyDB (.entity ⟨some 3, 1, 2, 1, some "k"⟩)).table_edges.filter
        (fun s => s._id == 3) = [⟨3, 1, 2, 1, some "k"⟩]) ∧
    (insert_edge emptyDB (.record ⟨none, 4, 5, 2, some "lost"⟩)).table_edges =
      emptyDB.table_edges ++ [⟨emptyDB.next_id, 4, 5, 2, none⟩] :=
  attributes_verbatim_for_entities emptyDB ⟨some 3, 1, 2, 1, some "k"⟩ 3
    ⟨none, 4, 5, 2, some "lost"⟩ rfl (by simp [emptyDB])

/-- **C8.** Edges are directed: with only the edge `(1,2,w)` stored,
`find_edge(2,1)` is none while `find_edge_or_inv(1,2)` returns that edge;
in general `find_edge_or_inv(a,b)` returns exactly the stored edges matching
`(from=a,to=b)` or `(from=b,to=a)`, and any edge `find_edge(a,b)` returns is
a stored edge with `from=a` and `to=b`. -/
theorem find_edge_directedness (db : DB) (a b : Int) (w : ℚ) (e : StoredRow) :
    find_edge (dbOneEdge w) 2 1 = none ∧
    find_edge_or_inv (dbOneEdge w) 1 2 = [⟨1, 1, 2, w, none⟩] ∧
    (e ∈ find_edge_or_inv db a b ↔
      e ∈ db.table_edges ∧
        ((e.v_from = a ∧ e.v_to = b) ∨ (e.v_from = b ∧ e.v_to = a))) ∧
    (∀ e' ∈ find_edge db a b,
      e' ∈ db.table_edges ∧ e'.v_from = a ∧ e'.v_to = b) := by
  refine ⟨rfl, rfl, ?_, ?_⟩
  · simp [find_edge_or_inv, List.mem_filter]
  · intro e' he'
    have hmem : e' ∈ db.table_edges.filter
        (fun s => s.v_from == a && s.v_to == b) :=
      List.mem_of_mem_head? he'
    obtain ⟨h1, h2⟩ := List.mem_filter.mp hmem
    simp only [Bool.and_eq_true, beq_iff_eq] at h2
    exact ⟨h1, h2.1, h2.2⟩

/-- `SUM(weight)` over a nonempty selection is the sum of the weights. -/
lemma sqlSum_map_of_ne_nil (l : List StoredRow) (h : l ≠ []) :
    sqlSum (l.map (fun e => e.weight)) =
      some ((l.map (fun e => e.weight)).sum) := by
  rw [sqlSum, if_neg]
  simp [h]

/-- **C9.** Each of `count_following(v)`, `count_followers(v)` and
`count_related(v)` is the single pair (number of matching edges, sum of
their weights) — here stated for a vertex that each query matches, so the
SQL sum is defined; in particular, with outgoing weights `[1.0, 2.5, 0.5]`
at vertex 5, `count_following(5)` is `(3, 4.0)`. -/
theorem count_aggregates_pair (db : DB) (v : Int)
    (hf : ∃ e ∈ db.table_edges, e.v_from = v)
    (ht : ∃ e ∈ db.table_edges, e.v_to = v) :
    (count_following db v =
      ((edges_from db v).length,
        some (((edges_from db v).map (fun e => e.weight)).sum))) ∧
    (count_followers db v =
      ((edges_to db v).length,
        some (((edges_to db v).map (fun e => e.weight)).sum))) ∧
    (count_related db v =
      ((edges_related db v).length,
        some (((edges_related db v).map (fun e => e.weight)).sum))) ∧
    count_following dbWeights 5 = (3, some 4) := by
  obtain ⟨ef, hef, hefv⟩ := hf
  obtain ⟨et, het, hetv⟩ := ht
  have hne_from : edges_from db v ≠ [] := by
    intro hnil
    have : ef ∈ edges_from db v :=
      List.mem_filter.mpr ⟨hef, by simp [hefv]⟩
    rw [hnil] at this
    simp at this
  have hne_to : edges_to db v ≠ [] := by
    intro hnil
    have : et ∈ edges_to db v :=
      List.mem_filter.mpr ⟨het, by simp [hetv]⟩
    rw [hnil] at this
    simp at this
  have hne_rel : edges_related db v ≠ [] := by
    intro hnil
    have : ef ∈ edges_related db v :=
      List.mem_filter.mpr ⟨hef, by simp [hefv]⟩
    rw [hnil] at this
    simp at this
  refine ⟨?_, ?_, ?_, ?_⟩
  · rw [count_following, List.length_map, sqlSum_map_of_ne_nil _ hne_from]
  · rw [count_followers, List.length_map, sqlSum_map_of_ne_nil _ hne_to]
  · rw [count_related, List.length_map, sqlSum_map_of_ne_nil _ hne_rel]
  · have hsum : ([(1 : ℚ), 5/2, 1/2]).sum = 4 := by norm_num
    rw [show count_following dbWeights 5 =
      (3, some (([(1 : ℚ), 5/2, 1/2]).sum)) from rfl, hsum]

/-- Witness for `count_aggregates_pair` at vertex 2 of the concrete chain
store (vertex 2 has both an incoming and an outgoing edge there). -/
theorem count_aggregates_pair_witness :
    (count_following dbChain 2 =
      ((edges_from dbChain 2).length,
        some (((edges_from dbChain 2).map (fun e => e.weight)).sum))) ∧
    (count_followers dbChain 2 =
      ((edges_to dbChain 2).length,
        some (((edges_to dbChain 2).map (fun e => e.weight)).sum))) ∧
    (count_related dbChain 2 =
      ((edges_related dbChain 2).length,
        some (((edges_related dbChain 2).map (fun e => e.weight)).sum))) ∧
    count_following dbWeights 5 = (3, some 4) :=
  count_aggregates_pair dbChain 2 (by decide) (by decide)

/-- **C10.** For a vertex no stored edge matches, each of
`count_followers`, `count_following` and `count_related` returns count 0
paired with an absent sum (`SUM` over an empty selection is SQL `NULL`,
i.e. `none`, not the number `0.0`). -/
theorem count_aggregates_unmatched (db : DB) (v : Int)
    (h : ∀ e ∈ db.table_edges, e.v_from ≠ v ∧ e.v_to ≠ v) :
    count_followers db v = (0, none) ∧
    count_following db v = (0, none) ∧
    count_related db v = (0, none) := by
  have ht : edges_to db v = [] :=
    List.filter_eq_nil_iff.mpr (fun e he => by simp [(h e he).2])
  have hf : edges_from db v = [] :=
    List.filter_eq_nil_iff.mpr (fun e he => by simp [(h e he).1])
  have hr : edges_related db v = [] :=
    List.filter_eq_nil_iff.mpr
      (fun e he => by simp [(h e he).1, (h e he).2])
  refine ⟨?_, ?_, ?_⟩
  · rw [count_followers, ht]; rfl
  · rw [count_following, hf]; rfl
  · rw [count_related, hr]; rfl

/-- Witness for `count_aggregates_unmatched`: vertex 99 is not an endpoint
of any edge of the concrete store `dbWeights`. -/
theorem count_aggregates_unmatched_witness :
    count_followers dbWeights 99 = (0, none) ∧
    count_following dbWeights 99 = (0, none) ∧
    count_related dbWeights 99 = (0, none) :=
  count_aggregates_unmatched dbWeights 99 (by decide)
